import Mathlib

/-!
Verification of the angle-labeling session controller of
`src/label_angles.py` (class `AngleLabeler`).

The Python code is shallowly embedded as follows:

* angles are modelled as exact rationals (`ℚ`) for the store / session state,
  and as real numbers (`ℝ`) for the trigonometric angle computation
  (`AngleLabeler.calculate_angle_from_coords`);
* the CSV label store is modelled as a list of records, each record a list of
  string fields (the `csv` module's writer/reader are inverse on fields, so
  the line-level encoding is not reproduced);
* Python's `f"{x:.2f}"` formatting is modelled by `fmt2` (round-half-even to
  two decimals, then decimal rendering), and the `float` builtin on the plain
  decimal literals relevant here is modelled by `parseFloat`;
* the mutable `AngleLabeler` object state is the structure `LabelerState`;
  GUI side effects (message boxes, CSV writes, loading a gif, the bell) are
  recorded as an explicit event list `StoreEvent`; each Python method becomes
  a pure function `LabelerState → LabelerState × List StoreEvent`.
  The gif decoding and the animation timer are external collaborators and are
  not modelled (decoding is assumed to succeed).
-/

/-! ## Decimal digits: rendering and parsing -/

/-- The character for a decimal digit `d < 10` (Python renders digits this way). -/
def digitChar (d : ℕ) : Char := Char.ofNat (48 + d)

/-- Whether `c` is one of the characters accepted by `float` as a decimal digit. -/
def isDigitChar (c : Char) : Bool := 48 ≤ c.toNat && c.toNat ≤ 57

/-- Numeric value of a digit character. -/
def charVal (c : Char) : ℕ := c.toNat - 48

/-- Decimal rendering of a natural number, as Python's `str`/`repr` renders it. -/
def natChars (n : ℕ) : List Char :=
  if n = 0 then ['0'] else ((Nat.digits 10 n).map digitChar).reverse

/-- Parse a nonempty all-digit character list into a natural number
(the digit-sequence part of Python's `float`). -/
def parseDigitList (l : List Char) : Option ℕ :=
  if l = [] then none
  else if l.all isDigitChar then some (Nat.ofDigits 10 ((l.map charVal).reverse))
  else none

/-- Model of Python's `float` builtin on an unsigned plain decimal literal:
an optional integer part, an optional '.', an optional fractional part,
at least one digit overall.  (Exponents, `inf`/`nan` and surrounding
whitespace, which never occur in this application's store, are not modelled.) -/
def parseUnsigned (l : List Char) : Option ℚ :=
  let ip := l.takeWhile (fun c => c != '.')
  let rest := l.dropWhile (fun c => c != '.')
  match rest with
  | [] => (parseDigitList ip).map (fun v => (v : ℚ))
  | _ :: fp =>
    match ip, fp with
    | [], [] => none
    | [], _ => (parseDigitList fp).map (fun v => (v : ℚ) / 10 ^ fp.length)
    | _, [] => (parseDigitList ip).map (fun v => (v : ℚ))
    | _, _ =>
      match parseDigitList ip, parseDigitList fp with
      | some v, some w => some ((v : ℚ) + (w : ℚ) / 10 ^ fp.length)
      | _, _ => none

/-- Model of Python's `float` builtin on a signed plain decimal literal. -/
def parseFloatChars (l : List Char) : Option ℚ :=
  match l with
  | [] => none
  | c :: rest => if c = '-' then (parseUnsigned rest).map (fun q => -q) else parseUnsigned (c :: rest)

/-- `float(s)` for the decimal strings this application reads. -/
def parseFloat (s : String) : Option ℚ := parseFloatChars s.data

/-- Round-half-even of a rational to an integer, the rounding used by Python's
float formatting (`:.2f` applies it to the value scaled by 100). -/
def rhe (q : ℚ) : ℤ :=
  let f := q.floor
  if q - f < 1 / 2 then f
  else if 1 / 2 < q - f then f + 1
  else if 2 ∣ f then f else f + 1

/-- The value that survives writing an angle with `f"{x:.2f}"` and reading it
back: the angle rounded (half-even) to two decimal places. -/
def round2 (a : ℚ) : ℚ := (rhe (100 * a) : ℚ) / 100

/-- Character list of `f"{a:.2f}"`: optional sign, integer part, '.', two
fractional digits. -/
def fmt2Chars (a : ℚ) : List Char :=
  let n := rhe (100 * a)
  (if n < 0 then ['-'] else []) ++
    natChars (n.natAbs / 100) ++
    '.' :: [digitChar (n.natAbs % 100 / 10), digitChar (n.natAbs % 10)]

/-- Model of Python's `f"{a:.2f}"`. -/
def fmt2 (a : ℚ) : String := ⟨fmt2Chars a⟩

/-! ## The label store (`_write_labels_to_csv` / the reading loop of
`initialize_data_and_load`) -/

/-- The data rows emitted by `AngleLabeler._write_labels_to_csv`
(`for fname in self.all_gifs: if fname in self.labels: writer.writerow(...)`). -/
def bodyRows (gifs : List String) (labels : String → Option ℚ) : List (List String) :=
  gifs.filterMap (fun f => (labels f).map (fun a => [f, fmt2 a]))

/-- The full record list written by `AngleLabeler._write_labels_to_csv`:
one header row, then one row per labeled item in `all_gifs` order. -/
def writeLabelsRows (gifs : List String) (labels : String → Option ℚ) : List (List String) :=
  ["filename", "angle"] :: bodyRows gifs labels

/-- The row loop of `initialize_data_and_load`:
`for row in reader: if row: self.labels[row[0]] = float(row[1])`.
An empty row is skipped; a row without a second field raises `IndexError`
and a non-numeric second field raises `ValueError`, both caught by the
`except` clause that aborts startup (modelled as `none`). -/
def readRows : List (List String) → (String → Option ℚ) → Option (String → Option ℚ)
  | [], m => some m
  | row :: rest, m =>
    match row with
    | [] => readRows rest m
    | [_] => none
    | f :: v :: _ =>
      match parseFloat v with
      | some a => readRows rest (fun k => if k = f then some a else m k)
      | none => none

/-- The store-parsing part of `AngleLabeler.initialize_data_and_load`:
skip the header row (`next(reader, None)`), then fold the remaining rows
into the label mapping. -/
def readLabelsFromCSV (rows : List (List String)) : Option (String → Option ℚ) :=
  readRows (rows.drop 1) (fun _ => none)

/-! ## The format/parse inverse: `float(f"{a:.2f}") == round(a, 2)` -/

theorem digitChar_spec : ∀ d, d < 10 → isDigitChar (digitChar d) = true ∧ charVal (digitChar d) = d := by
  decide

theorem isDigitChar_ne_dot {c : Char} (h : isDigitChar c = true) : (c != '.') = true := by
  by_cases hc : c = '.'
  · subst hc; exact absurd h (by decide)
  · simpa [bne_iff_ne] using hc

theorem isDigitChar_ne_minus {c : Char} (h : isDigitChar c = true) : c ≠ '-' := by
  intro hc; subst hc; exact absurd h (by decide)

theorem natChars_ne_nil (n : ℕ) : natChars n ≠ [] := by
  unfold natChars
  by_cases h : n = 0
  · simp [h]
  · simp only [h, if_false]
    intro hc
    have hne := (@Nat.digits_ne_nil_iff_ne_zero 10 n).mpr h
    simp at hc
    exact hne hc

theorem natChars_all_digits (n : ℕ) : ∀ c ∈ natChars n, isDigitChar c = true := by
  intro c hc
  unfold natChars at hc
  by_cases h : n = 0
  · simp [h] at hc; subst hc; decide
  · simp only [h, if_false, List.mem_reverse, List.mem_map] at hc
    obtain ⟨d, hd, rfl⟩ := hc
    exact (digitChar_spec d (Nat.digits_lt_base (by norm_num) hd)).1

theorem parseDigitList_natChars (n : ℕ) : parseDigitList (natChars n) = some n := by
  by_cases h : n = 0
  · subst h; decide
  · unfold parseDigitList
    rw [if_neg (natChars_ne_nil n), if_pos (List.all_eq_true.mpr (natChars_all_digits n))]
    congr 1
    unfold natChars
    simp only [h, if_false, List.map_reverse, List.reverse_reverse, List.map_map]
    have hmap : (Nat.digits 10 n).map (charVal ∘ digitChar) = (Nat.digits 10 n).map id :=
      List.map_congr_left (fun d hd => (digitChar_spec d (Nat.digits_lt_base (by norm_num) hd)).2)
    rw [hmap, List.map_id, Nat.ofDigits_digits]

theorem takeWhile_all_append {α : Type} (p : α → Bool) (l1 l2 : List α) (x : α)
    (h1 : ∀ c ∈ l1, p c = true) (hx : p x = false) :
    (l1 ++ x :: l2).takeWhile p = l1 := by
  induction l1 with
  | nil => simp [List.takeWhile, hx]
  | cons a t ih =>
    simp only [List.cons_append, List.takeWhile]
    rw [h1 a (List.mem_cons_self a t)]
    simp [ih (fun c hc => h1 c (List.mem_cons_of_mem a hc))]

theorem dropWhile_all_append {α : Type} (p : α → Bool) (l1 l2 : List α) (x : α)
    (h1 : ∀ c ∈ l1, p c = true) (hx : p x = false) :
    (l1 ++ x :: l2).dropWhile p = x :: l2 := by
  induction l1 with
  | nil => simp [List.dropWhile, hx]
  | cons a t ih =>
    simp only [List.cons_append, List.dropWhile]
    rw [h1 a (List.mem_cons_self a t)]
    simpa using ih (fun c hc => h1 c (List.mem_cons_of_mem a hc))

theorem parseUnsigned_decimal (q d : ℕ) (hd : d < 100) :
    parseUnsigned (natChars q ++ '.' :: [digitChar (d / 10), digitChar (d % 10)]) =
      some ((q : ℚ) + (d : ℚ) / 100) := by
  obtain ⟨c, cs, hcons⟩ := List.exists_cons_of_ne_nil (natChars_ne_nil q)
  have ht : (natChars q ++ '.' :: [digitChar (d / 10), digitChar (d % 10)]).takeWhile
      (fun c => c != '.') = natChars q :=
    takeWhile_all_append _ _ _ _ (fun c hc => isDigitChar_ne_dot (natChars_all_digits q c hc))
      (by decide)
  have hdw : (natChars q ++ '.' :: [digitChar (d / 10), digitChar (d % 10)]).dropWhile
      (fun c => c != '.') = '.' :: [digitChar (d / 10), digitChar (d % 10)] :=
    dropWhile_all_append _ _ _ _ (fun c hc => isDigitChar_ne_dot (natChars_all_digits q c hc))
      (by decide)
  have hfp : parseDigitList [digitChar (d / 10), digitChar (d % 10)] = some (d % 10 + 10 * (d / 10)) := by
    have h1 := digitChar_spec (d / 10) (by omega)
    have h2 := digitChar_spec (d % 10) (by omega)
    unfold parseDigitList
    rw [if_neg (by simp), if_pos (by simp [h1.1, h2.1])]
    simp [h1.2, h2.2, Nat.ofDigits]
  unfold parseUnsigned
  rw [ht, hdw, hcons]
  simp only []
  rw [← hcons, parseDigitList_natChars, hfp]
  simp only [List.length_cons, List.length_nil]
  norm_num
  have h0 : d % 10 + 10 * (d / 10) = d := by omega
  have hdd : ((d % 10 : ℕ) : ℚ) + 10 * ((d / 10 : ℕ) : ℚ) = (d : ℚ) := by
    exact_mod_cast congrArg (fun x : ℕ => (x : ℚ)) h0
  rw [hdd]

theorem parseFloatChars_cons_minus (rest : List Char) :
    parseFloatChars ('-' :: rest) = (parseUnsigned rest).map (fun q => -q) := rfl

theorem parseFloatChars_cons_of_ne (c : Char) (rest : List Char) (h : c ≠ '-') :
    parseFloatChars (c :: rest) = parseUnsigned (c :: rest) := by
  simp [parseFloatChars, h]

theorem parseFloatChars_fmt2Chars (a : ℚ) : parseFloatChars (fmt2Chars a) = some (round2 a) := by
  have hmod : (rhe (100 * a)).natAbs % 100 % 10 = (rhe (100 * a)).natAbs % 10 := by omega
  have key := parseUnsigned_decimal ((rhe (100 * a)).natAbs / 100) ((rhe (100 * a)).natAbs % 100)
    (by omega)
  rw [hmod] at key
  have h0 : (rhe (100 * a)).natAbs / 100 * 100 + (rhe (100 * a)).natAbs % 100 =
      (rhe (100 * a)).natAbs := by omega
  have hval : (((rhe (100 * a)).natAbs / 100 : ℕ) : ℚ) +
      (((rhe (100 * a)).natAbs % 100 : ℕ) : ℚ) / 100 = ((rhe (100 * a)).natAbs : ℚ) / 100 := by
    field_simp
    exact_mod_cast congrArg (fun x : ℕ => (x : ℚ)) h0
  by_cases hneg : rhe (100 * a) < 0
  · have hrep : fmt2Chars a = '-' :: (natChars ((rhe (100 * a)).natAbs / 100) ++
        '.' :: [digitChar ((rhe (100 * a)).natAbs % 100 / 10), digitChar ((rhe (100 * a)).natAbs % 10)]) := by
      simp [fmt2Chars, hneg]
    rw [hrep, parseFloatChars_cons_minus, key]
    unfold round2
    rw [Option.map_some', hval]
    congr 1
    rw [Int.cast_natAbs, abs_of_neg hneg]
    push_cast
    ring
  · have hrep : fmt2Chars a = natChars ((rhe (100 * a)).natAbs / 100) ++
        '.' :: [digitChar ((rhe (100 * a)).natAbs % 100 / 10), digitChar ((rhe (100 * a)).natAbs % 10)] := by
      simp [fmt2Chars, hneg]
    obtain ⟨c, cs, hcons⟩ := List.exists_cons_of_ne_nil (natChars_ne_nil ((rhe (100 * a)).natAbs / 100))
    have hcdigit : isDigitChar c = true :=
      natChars_all_digits _ c (by rw [hcons]; exact List.mem_cons_self c cs)
    rw [hrep, hcons, List.cons_append,
      parseFloatChars_cons_of_ne c _ (isDigitChar_ne_minus hcdigit),
      ← List.cons_append, ← hcons, key]
    unfold round2
    rw [hval]
    congr 1
    rw [Int.cast_natAbs, abs_of_nonneg (not_lt.mp hneg)]

theorem parseFloat_fmt2 (a : ℚ) : parseFloat (fmt2 a) = some (round2 a) :=
  parseFloatChars_fmt2Chars a

/-! ## Store write / re-read -/

theorem readRows_bodyRows (gifs : List String) (labels : String → Option ℚ) :
    ∀ m0 : String → Option ℚ,
      readRows (bodyRows gifs labels) m0 =
        some (fun k => if k ∈ gifs ∧ (labels k).isSome then (labels k).map round2 else m0 k) := by
  induction gifs with
  | nil =>
    intro m0
    simp only [bodyRows, List.filterMap_nil, readRows]
    exact congrArg some (funext fun k => by simp)
  | cons g gs ih =>
    intro m0
    rcases hg : labels g with _ | a
    · have hrows : bodyRows (g :: gs) labels = bodyRows gs labels := by
        unfold bodyRows
        rw [List.filterMap_cons_none]
        rw [hg]
        rfl
      rw [hrows, ih]
      congr 1
      funext k
      by_cases hk : k = g
      · subst hk
        simp [hg]
      · simp [List.mem_cons, hk]
    · have hrows : bodyRows (g :: gs) labels = [g, fmt2 a] :: bodyRows gs labels := by
        unfold bodyRows
        rw [List.filterMap_cons_some]
        rw [hg]
        rfl
      rw [hrows]
      simp only [readRows, parseFloat_fmt2]
      rw [ih]
      congr 1
      funext k
      by_cases hk : k = g
      · subst hk
        by_cases hmem : k ∈ gs
        · simp [hmem, hg]
        · simp [hmem, hg, List.mem_cons]
      · simp [List.mem_cons, hk]

theorem bodyRows_keys (gifs : List String) (labels : String → Option ℚ) :
    (bodyRows gifs labels).map (fun r => r.headD "") =
      gifs.filter (fun f => (labels f).isSome) := by
  induction gifs with
  | nil => rfl
  | cons g gs ih =>
    rcases hg : labels g with _ | a
    · have hrows : bodyRows (g :: gs) labels = bodyRows gs labels := by
        unfold bodyRows
        rw [List.filterMap_cons_none]
        rw [hg]
        rfl
      rw [hrows, ih, List.filter_cons]
      simp [hg]
    · have hrows : bodyRows (g :: gs) labels = [g, fmt2 a] :: bodyRows gs labels := by
        unfold bodyRows
        rw [List.filterMap_cons_some]
        rw [hg]
        rfl
      rw [hrows, List.map_cons, ih, List.filter_cons]
      simp [hg]

/-! ## Angle computation (`AngleLabeler.calculate_angle_from_coords`) -/

open Classical in
/-- Model of Python's `math.atan2(y, x)` over the reals (signed zeros do not
exist in `ℝ`; the code only ever meets `atan2` at `(0, 0)` if the pointer sits
exactly on the origin, where Python returns `0.0`). -/
noncomputable def atan2 (y x : ℝ) : ℝ :=
  if 0 < x then Real.arctan (y / x)
  else if x < 0 then
    (if 0 ≤ y then Real.arctan (y / x) + Real.pi else Real.arctan (y / x) - Real.pi)
  else if 0 < y then Real.pi / 2
  else if y < 0 then -(Real.pi / 2)
  else 0

/-- Model of Python's `math.degrees`. -/
noncomputable def degrees (r : ℝ) : ℝ := r * 180 / Real.pi

/-- `AngleLabeler.calculate_angle_from_coords` with `CANVAS_WIDTH = 400`:
origin at the top-center `(200, 0)`, `angle = 180 - degrees(atan2(y, x - 200))`
clamped to `[0, 180]`. -/
noncomputable def calculate_angle_from_coords (x y : ℝ) : ℝ :=
  let origin_x : ℝ := 400 / 2
  let origin_y : ℝ := 0
  let rads := atan2 (y - origin_y) (x - origin_x)
  let degs := degrees rads
  let angle := 180 - degs
  max 0 (min 180 angle)

theorem calculate_angle_eq (x y : ℝ) :
    calculate_angle_from_coords x y =
      max 0 (min 180 (180 - degrees (atan2 (y - 0) (x - 400 / 2)))) := rfl

theorem atan2_zero_pos {x : ℝ} (hx : 0 < x) : atan2 0 x = 0 := by
  unfold atan2
  rw [if_pos hx, zero_div, Real.arctan_zero]

theorem atan2_zero_neg {x : ℝ} (hx : x < 0) : atan2 0 x = Real.pi := by
  unfold atan2
  rw [if_neg (by linarith), if_pos hx, if_pos le_rfl, zero_div, Real.arctan_zero, zero_add]

theorem atan2_pos_zero {y : ℝ} (hy : 0 < y) : atan2 y 0 = Real.pi / 2 := by
  unfold atan2
  rw [if_neg (by linarith), if_neg (by linarith), if_pos hy]

theorem degrees_pi : degrees Real.pi = 180 := by
  unfold degrees
  field_simp

theorem degrees_pi_div_two : degrees (Real.pi / 2) = 90 := by
  unfold degrees
  field_simp
  ring

theorem calculate_angle_mem_Icc (x y : ℝ) :
    0 ≤ calculate_angle_from_coords x y ∧ calculate_angle_from_coords x y ≤ 180 := by
  unfold calculate_angle_from_coords
  refine ⟨le_max_left _ _, ?_⟩
  exact max_le (by norm_num) (min_le_left _ _)

/-! ## Session state (`AngleLabeler`) -/

/-- Observable side effects of the controller methods: a (successful) CSV
rewrite with the rows written, the `messagebox.showerror` raised when the
rewrite hits an `IOError`, a `messagebox.showinfo` with its title, loading
(and starting playback of) the gif at an index, and the terminal bell. -/
inductive StoreEvent where
  | wroteStore : List (List String) → StoreEvent
  | writeError : StoreEvent
  | infoMessage : String → StoreEvent
  | loaded : ℕ → StoreEvent
  | bell : StoreEvent
deriving DecidableEq

/-- The mutable fields of `AngleLabeler` that the controller logic touches.
`selected_angle` is the Pending Selection; `labels` is the Label mapping
(`none` = key absent from the dict).  GUI widget state is not modelled. -/
structure LabelerState where
  all_gifs : List String
  labels : String → Option ℚ
  current_gif_index : ℕ
  selected_angle : Option ℚ
  total_unlabeled_at_start : ℤ
  labeled_this_session : ℤ
  newly_labeled_in_session : String → Bool

/-- `self.all_gifs[self.current_gif_index]` (the session keeps
`current_gif_index` in range; out of range Python would raise `IndexError`). -/
def currentFile (s : LabelerState) : String := s.all_gifs.getD s.current_gif_index ""

/-- `AngleLabeler._write_labels_to_csv`, parameterised by whether the file
write succeeds (`ok = false` models the caught `IOError`, which pops an error
box and leaves every in-memory field untouched). -/
def write_labels_to_csv (ok : Bool) (gifs : List String) (labels : String → Option ℚ) :
    List StoreEvent :=
  if ok then [.wroteStore (writeLabelsRows gifs labels)] else [.writeError]

/-- `AngleLabeler._save_current_selection_if_exists`: if a Pending Selection
exists, insert it into the Label mapping under the current filename, rewrite
the CSV, and update the session counters when the label is new. -/
def save_current_selection_if_exists (ok : Bool) (s : LabelerState) :
    LabelerState × List StoreEvent :=
  match s.selected_angle with
  | none => (s, [])
  | some a =>
    let filename := currentFile s
    let isNewLabel := (s.labels filename).isNone
    let labels' := fun k => if k = filename then some a else s.labels k
    let ev := write_labels_to_csv ok s.all_gifs labels'
    if isNewLabel then
      ({ s with labels := labels',
                labeled_this_session := s.labeled_this_session + 1,
                newly_labeled_in_session :=
                  fun k => if k = filename then true else s.newly_labeled_in_session k }, ev)
    else
      ({ s with labels := labels' }, ev)

/-- `AngleLabeler.load_gif_at_index`: no-op when the index is out of range;
otherwise move the cursor, clear the Pending Selection, load the gif
(decoding is assumed to succeed; a decode failure would skip forward), and --
when the new item already has a stored label -- set the Pending Selection to
that stored angle and show the persistent indicator. -/
def load_gif_at_index (s : LabelerState) (index : ℕ) : LabelerState × List StoreEvent :=
  if index < s.all_gifs.length then
    let filename := s.all_gifs.getD index ""
    let s1 := { s with current_gif_index := index, selected_angle := none }
    match s.labels filename with
    | some a => ({ s1 with selected_angle := some a }, [.loaded index])
    | none => (s1, [.loaded index])
  else (s, [])

/-- `AngleLabeler.go_to_next_gif`: advance by one, or report end-of-list. -/
def go_to_next_gif (s : LabelerState) : LabelerState × List StoreEvent :=
  if s.current_gif_index < s.all_gifs.length - 1 then
    load_gif_at_index s (s.current_gif_index + 1)
  else (s, [.infoMessage "End of List"])

/-- `AngleLabeler.go_to_previous_gif`: retreat by one, or report
start-of-list. -/
def go_to_previous_gif (s : LabelerState) : LabelerState × List StoreEvent :=
  if 0 < s.current_gif_index then
    load_gif_at_index s (s.current_gif_index - 1)
  else (s, [.infoMessage "Start of List"])

/-- Whether the item at position `i` is labeled, as the scan loop of
`find_and_go_to_next_unlabeled` tests it (`filename not in self.labels`). -/
def labeledIn (s : LabelerState) (i : ℕ) : Bool := (s.labels (s.all_gifs.getD i "")).isSome

/-- The scan of `AngleLabeler.find_and_go_to_next_unlabeled`:
`for i in range(1, num_gifs): check (start + i) % num_gifs`, returning the
first scanned position holding an unlabeled item. -/
def scanNextUnlabeled (n : ℕ) (labeled : ℕ → Bool) (c : ℕ) : Option ℕ :=
  ((List.range' 1 (n - 1)).find? (fun i => !labeled ((c + i) % n))).map (fun i => (c + i) % n)

/-- `AngleLabeler.find_and_go_to_next_unlabeled`: save any Pending Selection,
then scan for the next unlabeled item; load it if found, otherwise report
completion and fall back to `go_to_next_gif`. -/
def find_and_go_to_next_unlabeled (ok : Bool) (s : LabelerState) :
    LabelerState × List StoreEvent :=
  let p := save_current_selection_if_exists ok s
  match scanNextUnlabeled p.1.all_gifs.length (labeledIn p.1) p.1.current_gif_index with
  | some j =>
    let q := load_gif_at_index p.1 j
    (q.1, p.2 ++ q.2)
  | none =>
    let q := go_to_next_gif p.1
    (q.1, p.2 ++ [.infoMessage "Complete!"] ++ q.2)

/-- `AngleLabeler.save_and_go_to_next_sequential`. -/
def save_and_go_to_next_sequential (ok : Bool) (s : LabelerState) :
    LabelerState × List StoreEvent :=
  let p := save_current_selection_if_exists ok s
  let q := go_to_next_gif p.1
  (q.1, p.2 ++ q.2)

/-- `AngleLabeler.undo_current_selection`: if the current item has a label,
fix up the session counters, delete the label, rewrite the CSV, clear the
Pending Selection and ring the bell; otherwise do nothing (`else: pass`). -/
def undo_current_selection (ok : Bool) (s : LabelerState) :
    LabelerState × List StoreEvent :=
  let filename := currentFile s
  match s.labels filename with
  | some _ =>
    let s1 :=
      if s.newly_labeled_in_session filename then
        { s with newly_labeled_in_session :=
                   fun k => if k = filename then false else s.newly_labeled_in_session k,
                 labeled_this_session := s.labeled_this_session - 1 }
      else s
    let labels' := fun k => if k = filename then none else s1.labels k
    let ev := write_labels_to_csv ok s.all_gifs labels'
    ({ s1 with labels := labels',
               selected_angle := none,
               total_unlabeled_at_start := s1.total_unlabeled_at_start + 1 }, ev ++ [.bell])
  | none => (s, [])

/-! ## Analysis of the circular scan -/

/-- The unlabeled positions in ascending order. -/
def ulist (n : ℕ) (labeled : ℕ → Bool) : List ℕ :=
  (List.range n).filter (fun i => !labeled i)

/-- The unlabeled positions in the order the scan of
`find_and_go_to_next_unlabeled` meets them from cursor `c`: first those after
`c`, then (wrapping) those before `c`; position `c` itself is never scanned. -/
def circAfter (n : ℕ) (labeled : ℕ → Bool) (c : ℕ) : List ℕ :=
  (ulist n labeled).filter (fun u => decide (c < u)) ++
    (ulist n labeled).filter (fun u => decide (u < c))

/-- Cursor positions reached by repeatedly pressing "Next Unlabeled" with a
static label mapping (when the scan finds nothing it leaves the cursor where
it was; the `go_to_next_gif` fallback is treated separately). -/
def seqVisit (n : ℕ) (labeled : ℕ → Bool) (c : ℕ) : ℕ → ℕ
  | 0 => c
  | t + 1 =>
    match scanNextUnlabeled n labeled (seqVisit n labeled c t) with
    | some j => j
    | none => seqVisit n labeled c t

theorem range'_split (s a b : ℕ) :
    List.range' s (a + b) = List.range' s a ++ List.range' (s + a) b := by
  have h := List.range'_append s a b 1
  rw [one_mul] at h
  rw [Nat.add_comm a b]
  exact h.symm

theorem map_mod_no_wrap (n c : ℕ) :
    ∀ (k s : ℕ), s + k + c ≤ n →
      (List.range' s k).map (fun i => (c + i) % n) = List.range' (c + s) k := by
  intro k
  induction k with
  | zero => intro s _; rfl
  | succ k ih =>
    intro s h
    rw [List.range'_succ, List.map_cons, List.range'_succ]
    have hcs : (c + s) % n = c + s := Nat.mod_eq_of_lt (by omega)
    rw [hcs]
    have htail := ih (s + 1) (by omega)
    rw [htail, ← Nat.add_assoc]

theorem map_mod_wrap (n c : ℕ) :
    ∀ (k s : ℕ), n ≤ c + s → c + s + k ≤ 2 * n →
      (List.range' s k).map (fun i => (c + i) % n) = List.range' (c + s - n) k := by
  intro k
  induction k with
  | zero => intro s _ _; rfl
  | succ k ih =>
    intro s h1 h2
    rw [List.range'_succ, List.map_cons, List.range'_succ]
    have hcs : (c + s) % n = c + s - n := by
      rw [Nat.mod_eq_sub_mod h1]
      exact Nat.mod_eq_of_lt (by omega)
    rw [hcs]
    have htail := ih (s + 1) (by omega) (by omega)
    have harg : c + (s + 1) - n = c + s - n + 1 := by omega
    rw [htail, harg]

theorem scan_map_eq (n c : ℕ) (hc : c < n) :
    (List.range' 1 (n - 1)).map (fun i => (c + i) % n) =
      List.range' (c + 1) (n - 1 - c) ++ List.range' 0 c := by
  have hsplit : List.range' 1 (n - 1) =
      List.range' 1 (n - 1 - c) ++ List.range' (1 + (n - 1 - c)) c := by
    rw [← range'_split]
    congr 1
    omega
  rw [hsplit, List.map_append]
  congr 1
  · have h := map_mod_no_wrap n c (n - 1 - c) 1 (by omega)
    rw [h]
  · have h := map_mod_wrap n c c (1 + (n - 1 - c)) (by omega) (by omega)
    rw [h]
    congr 1
    omega

theorem find?_eq_head_filter {α : Type} (p : α → Bool) (l : List α) :
    l.find? p = (l.filter p).head? := by
  induction l with
  | nil => rfl
  | cons a t ih =>
    by_cases h : p a
    · simp [List.find?_cons, List.filter_cons, h]
    · simp only [List.find?_cons, List.filter_cons, h]
      simp only [Bool.false_eq_true, if_false]
      exact ih

theorem ulist_filter_gt (n : ℕ) (labeled : ℕ → Bool) (c : ℕ) (hc : c < n) :
    (ulist n labeled).filter (fun u => decide (c < u)) =
      (List.range' (c + 1) (n - 1 - c)).filter (fun i => !labeled i) := by
  unfold ulist
  rw [List.filter_filter]
  have hsplit : List.range n = List.range' 0 (c + 1) ++ List.range' (c + 1) (n - 1 - c) := by
    rw [List.range_eq_range']
    have h := range'_split 0 (c + 1) (n - 1 - c)
    rw [Nat.zero_add] at h
    rw [← h]
    congr 1
    omega
  rw [hsplit, List.filter_append]
  have h1 : (List.range' 0 (c + 1)).filter (fun a => decide (c < a) && !labeled a) = [] := by
    rw [List.filter_eq_nil_iff]
    intro a ha
    have hm := List.mem_range'_1.mp ha
    simp only [Bool.and_eq_true, decide_eq_true_eq, not_and]
    intro hlt
    omega
  rw [h1, List.nil_append]
  apply List.filter_congr
  intro a ha
  have hm := List.mem_range'_1.mp ha
  have : decide (c < a) = true := decide_eq_true (by omega)
  rw [this, Bool.true_and]

theorem ulist_filter_lt (n : ℕ) (labeled : ℕ → Bool) (c : ℕ) (hc : c < n) :
    (ulist n labeled).filter (fun u => decide (u < c)) =
      (List.range' 0 c).filter (fun i => !labeled i) := by
  unfold ulist
  rw [List.filter_filter]
  have hsplit : List.range n = List.range' 0 c ++ List.range' c (n - c) := by
    rw [List.range_eq_range']
    have h := range'_split 0 c (n - c)
    rw [Nat.zero_add] at h
    rw [← h]
    congr 1
    omega
  rw [hsplit, List.filter_append]
  have h2 : (List.range' c (n - c)).filter (fun a => decide (a < c) && !labeled a) = [] := by
    rw [List.filter_eq_nil_iff]
    intro a ha
    have hm := List.mem_range'_1.mp ha
    simp only [Bool.and_eq_true, decide_eq_true_eq, not_and]
    intro hlt
    omega
  rw [h2, List.append_nil]
  apply List.filter_congr
  intro a ha
  have hm := List.mem_range'_1.mp ha
  have : decide (a < c) = true := decide_eq_true (by omega)
  rw [this, Bool.true_and]

/-- The scan of `find_and_go_to_next_unlabeled` lands exactly on the head of
`circAfter`: the first unlabeled position strictly after the cursor in
circular order, the cursor position itself excluded. -/
theorem scan_eq_circ (n : ℕ) (labeled : ℕ → Bool) (c : ℕ) (hc : c < n) :
    scanNextUnlabeled n labeled c = (circAfter n labeled c).head? := by
  unfold scanNextUnlabeled circAfter
  have h1 : Option.map (fun i => (c + i) % n)
        ((List.range' 1 (n - 1)).find? (fun i => !labeled ((c + i) % n))) =
      ((List.range' 1 (n - 1)).map (fun i => (c + i) % n)).find? (fun j => !labeled j) :=
    (@List.find?_map ℕ ℕ (fun j => !labeled j) (fun i => (c + i) % n)
      (List.range' 1 (n - 1))).symm
  rw [h1, scan_map_eq n c hc, List.find?_append, find?_eq_head_filter, find?_eq_head_filter,
    List.head?_append, ulist_filter_gt n labeled c hc, ulist_filter_lt n labeled c hc]

theorem ulist_sorted (n : ℕ) (labeled : ℕ → Bool) :
    List.Pairwise (fun a b => a < b) (ulist n labeled) :=
  (List.pairwise_lt_range n).filter _

theorem ulist_nodup (n : ℕ) (labeled : ℕ → Bool) : (ulist n labeled).Nodup :=
  (List.nodup_range n).filter _

theorem mem_ulist (n : ℕ) (labeled : ℕ → Bool) (u : ℕ) :
    u ∈ ulist n labeled ↔ u < n ∧ labeled u = false := by
  simp [ulist, List.mem_filter, List.mem_range]

theorem filter_pivot_gt {x : ℕ} (l1 l2 : List ℕ)
    (h1 : ∀ a ∈ l1, ¬(x < a)) (h2 : ∀ a ∈ l2, x < a) :
    (l1 ++ l2).filter (fun u => decide (x < u)) = l2 := by
  have e1 : l1.filter (fun u => decide (x < u)) = [] :=
    List.filter_eq_nil_iff.mpr (by intro a ha; simpa using h1 a ha)
  have e2 : l2.filter (fun u => decide (x < u)) = l2 :=
    List.filter_eq_self.mpr (by intro a ha; exact decide_eq_true (h2 a ha))
  rw [List.filter_append, e1, e2, List.nil_append]

theorem filter_pivot_lt {x : ℕ} (l1 l2 : List ℕ)
    (h1 : ∀ a ∈ l1, a < x) (h2 : ∀ a ∈ l2, ¬(a < x)) :
    (l1 ++ l2).filter (fun u => decide (u < x)) = l1 := by
  have e1 : l1.filter (fun u => decide (u < x)) = l1 :=
    List.filter_eq_self.mpr (by intro a ha; exact decide_eq_true (h1 a ha))
  have e2 : l2.filter (fun u => decide (u < x)) = [] :=
    List.filter_eq_nil_iff.mpr (by intro a ha; simpa using h2 a ha)
  rw [List.filter_append, e1, e2, List.append_nil]

theorem sorted_get_lt (l : List ℕ) (hs : List.Pairwise (fun a b => a < b) l)
    {m i : ℕ} (hm : m < l.length) (hi : i < l.length) (hlt : m < i) :
    l.get ⟨m, hm⟩ < l.get ⟨i, hi⟩ :=
  List.pairwise_iff_get.mp hs ⟨m, hm⟩ ⟨i, hi⟩ hlt

theorem sorted_filter_gt_eq_drop (l : List ℕ) (hs : List.Pairwise (fun a b => a < b) l)
    (i : ℕ) (hi : i < l.length) :
    l.filter (fun u => decide (l.get ⟨i, hi⟩ < u)) = l.drop (i + 1) := by
  have hsplit : l = l.take (i + 1) ++ l.drop (i + 1) := (List.take_append_drop (i + 1) l).symm
  have h1 : ∀ a ∈ l.take (i + 1), ¬(l.get ⟨i, hi⟩ < a) := by
    intro a ha
    obtain ⟨m, hm⟩ := List.mem_iff_get.mp ha
    have hmlen : (m : ℕ) < l.length := by
      have := m.isLt
      simp only [List.length_take] at this
      omega
    have hmi : (m : ℕ) ≤ i := by
      have := m.isLt
      simp only [List.length_take] at this
      omega
    have hval : (l.take (i + 1)).get m = l.get ⟨(m : ℕ), hmlen⟩ := by
      rw [List.get_eq_getElem, List.get_eq_getElem]
      exact List.getElem_take l
    rw [← hm, hval]
    rcases Nat.lt_or_ge (m : ℕ) i with hcase | hcase
    · exact not_lt.mpr (le_of_lt (sorted_get_lt l hs hmlen hi hcase))
    · have hemq : (m : ℕ) = i := by omega
      have : l.get ⟨(m : ℕ), hmlen⟩ = l.get ⟨i, hi⟩ := by
        congr 1
        exact Fin.ext hemq
      rw [this]
      exact lt_irrefl _
  have h2 : ∀ a ∈ l.drop (i + 1), l.get ⟨i, hi⟩ < a := by
    intro a ha
    obtain ⟨m, hm⟩ := List.mem_iff_get.mp ha
    have hmlen : i + 1 + (m : ℕ) < l.length := by
      have := m.isLt
      simp only [List.length_drop] at this
      omega
    have hval : (l.drop (i + 1)).get m = l.get ⟨i + 1 + (m : ℕ), hmlen⟩ := by
      rw [List.get_eq_getElem, List.get_eq_getElem]
      exact List.getElem_drop l
    rw [← hm, hval]
    exact sorted_get_lt l hs hi hmlen (by omega)
  calc l.filter (fun u => decide (l.get ⟨i, hi⟩ < u))
      = (l.take (i + 1) ++ l.drop (i + 1)).filter (fun u => decide (l.get ⟨i, hi⟩ < u)) := by
        exact congrArg _ hsplit
    _ = l.drop (i + 1) := filter_pivot_gt _ _ h1 h2

theorem sorted_filter_lt_eq_take (l : List ℕ) (hs : List.Pairwise (fun a b => a < b) l)
    (i : ℕ) (hi : i < l.length) :
    l.filter (fun u => decide (u < l.get ⟨i, hi⟩)) = l.take i := by
  have hsplit : l = l.take i ++ l.drop i := (List.take_append_drop i l).symm
  have h1 : ∀ a ∈ l.take i, a < l.get ⟨i, hi⟩ := by
    intro a ha
    obtain ⟨m, hm⟩ := List.mem_iff_get.mp ha
    have hmlen : (m : ℕ) < l.length := by
      have := m.isLt
      simp only [List.length_take] at this
      omega
    have hmi : (m : ℕ) < i := by
      have := m.isLt
      simp only [List.length_take] at this
      omega
    have hval : (l.take i).get m = l.get ⟨(m : ℕ), hmlen⟩ := by
      rw [List.get_eq_getElem, List.get_eq_getElem]
      exact List.getElem_take l
    rw [← hm, hval]
    exact sorted_get_lt l hs hmlen hi hmi
  have h2 : ∀ a ∈ l.drop i, ¬(a < l.get ⟨i, hi⟩) := by
    intro a ha
    obtain ⟨m, hm⟩ := List.mem_iff_get.mp ha
    have hmlen : i + (m : ℕ) < l.length := by
      have := m.isLt
      simp only [List.length_drop] at this
      omega
    have hval : (l.drop i).get m = l.get ⟨i + (m : ℕ), hmlen⟩ := by
      rw [List.get_eq_getElem, List.get_eq_getElem]
      exact List.getElem_drop l
    rw [← hm, hval]
    rcases Nat.eq_zero_or_pos (m : ℕ) with hz | hp
    · have hvz : i + (m : ℕ) = i := by omega
      have : l.get ⟨i + (m : ℕ), hmlen⟩ = l.get ⟨i, hi⟩ := by
        congr 1
        exact Fin.ext (by simpa using hvz)
      rw [this]
      exact lt_irrefl _
    · have hlt : i < i + (m : ℕ) := Nat.lt_add_of_pos_right hp
      exact not_lt.mpr (le_of_lt (sorted_get_lt l hs hi hmlen hlt))
  calc l.filter (fun u => decide (u < l.get ⟨i, hi⟩))
      = (l.take i ++ l.drop i).filter (fun u => decide (u < l.get ⟨i, hi⟩)) := by
        exact congrArg _ hsplit
    _ = l.take i := filter_pivot_lt _ _ h1 h2

/-- From an unlabeled position (position `i` of `ulist`), the scan lands on
the circular successor inside `ulist` (wrapping from the last to the first). -/
theorem scan_getD_succ (n : ℕ) (labeled : ℕ → Bool) (i : ℕ)
    (hi : i < (ulist n labeled).length) (hk : 2 ≤ (ulist n labeled).length) :
    scanNextUnlabeled n labeled ((ulist n labeled).getD i 0) =
      some ((ulist n labeled).getD ((i + 1) % (ulist n labeled).length) 0) := by
  have hgd : (ulist n labeled).getD i 0 = (ulist n labeled).get ⟨i, hi⟩ := by
    rw [List.getD_eq_getElem _ 0 hi, List.get_eq_getElem]
  have hmem : (ulist n labeled).get ⟨i, hi⟩ ∈ ulist n labeled := List.get_mem _ i hi
  have hcn : (ulist n labeled).get ⟨i, hi⟩ < n := ((mem_ulist n labeled _).mp hmem).1
  rw [hgd, scan_eq_circ n labeled _ hcn]
  unfold circAfter
  rw [sorted_filter_gt_eq_drop _ (ulist_sorted n labeled) i hi,
    sorted_filter_lt_eq_take _ (ulist_sorted n labeled) i hi, List.head?_append]
  rcases Nat.lt_or_ge (i + 1) (ulist n labeled).length with hlt | hge
  · have hd : ((ulist n labeled).drop (i + 1)).head? =
        some ((ulist n labeled).getD ((i + 1) % (ulist n labeled).length) 0) := by
      rw [List.head?_drop, Nat.mod_eq_of_lt hlt, List.getElem?_eq_getElem hlt,
        List.getD_eq_getElem _ 0 hlt]
    rw [hd]
    rfl
  · have hnil : (ulist n labeled).drop (i + 1) = [] := List.drop_eq_nil_of_le hge
    have hieq : i + 1 = (ulist n labeled).length := by omega
    have hi0 : ¬(i = 0) := by omega
    have hlen0 : 0 < (ulist n labeled).length := by omega
    rw [hnil, List.head?_nil, Option.none_or, List.head?_take, if_neg hi0,
      List.head?_eq_getElem?, List.getElem?_eq_getElem hlen0, hieq, Nat.mod_self,
      List.getD_eq_getElem _ 0 hlen0]

/-- The scan finds nothing exactly when every position other than the cursor
is labeled -- even if the cursor position itself is unlabeled. -/
theorem scan_none_iff (n : ℕ) (labeled : ℕ → Bool) (c : ℕ) (hc : c < n) :
    scanNextUnlabeled n labeled c = none ↔ ∀ i, i < n → labeled i = false → i = c := by
  rw [scan_eq_circ n labeled c hc, List.head?_eq_none_iff]
  unfold circAfter
  rw [List.append_eq_nil, List.filter_eq_nil_iff, List.filter_eq_nil_iff]
  constructor
  · rintro ⟨h1, h2⟩ i hin hlab
    have hmem : i ∈ ulist n labeled := (mem_ulist n labeled i).mpr ⟨hin, hlab⟩
    have hc1 := h1 i hmem
    have hc2 := h2 i hmem
    simp only [decide_eq_true_eq] at hc1 hc2
    omega
  · intro h
    constructor
    · intro u hu
      have hm := (mem_ulist n labeled u).mp hu
      have heq := h u hm.1 hm.2
      simp [heq]
    · intro u hu
      have hm := (mem_ulist n labeled u).mp hu
      have heq := h u hm.1 hm.2
      simp [heq]

/-- With at least two unlabeled items the scan always succeeds, and lands on
an unlabeled position. -/
theorem scan_isSome_of_two (n : ℕ) (labeled : ℕ → Bool) (c : ℕ) (hc : c < n)
    (hk : 2 ≤ (ulist n labeled).length) :
    ∃ j, scanNextUnlabeled n labeled c = some j ∧ j ∈ ulist n labeled := by
  have h0lt : 0 < (ulist n labeled).length := by omega
  have h1lt : 1 < (ulist n labeled).length := by omega
  have h01 : (ulist n labeled).get ⟨0, h0lt⟩ < (ulist n labeled).get ⟨1, h1lt⟩ :=
    sorted_get_lt _ (ulist_sorted n labeled) h0lt h1lt (by omega)
  obtain ⟨u, hu, hune⟩ : ∃ u, u ∈ ulist n labeled ∧ u ≠ c := by
    by_cases h0 : (ulist n labeled).get ⟨0, h0lt⟩ = c
    · exact ⟨(ulist n labeled).get ⟨1, h1lt⟩, List.get_mem _ 1 h1lt, by omega⟩
    · exact ⟨(ulist n labeled).get ⟨0, h0lt⟩, List.get_mem _ 0 h0lt, h0⟩
  have humem : u ∈ circAfter n labeled c := by
    unfold circAfter
    rcases Nat.lt_or_ge c u with h | h
    · exact List.mem_append.mpr (Or.inl (List.mem_filter.mpr ⟨hu, decide_eq_true h⟩))
    · have hlt : u < c := by omega
      exact List.mem_append.mpr (Or.inr (List.mem_filter.mpr ⟨hu, decide_eq_true hlt⟩))
  have hne : circAfter n labeled c ≠ [] := List.ne_nil_of_mem humem
  refine ⟨(circAfter n labeled c).head hne, ?_, ?_⟩
  · rw [scan_eq_circ n labeled c hc]
    exact List.head?_eq_head hne
  · have hhm : (circAfter n labeled c).head hne ∈ circAfter n labeled c := List.head_mem hne
    unfold circAfter at hhm
    rcases List.mem_append.mp hhm with h | h
    · exact List.mem_of_mem_filter h
    · exact List.mem_of_mem_filter h

/-- Closed form of the visit sequence: after the first landing the sequence
walks `ulist` cyclically. -/
theorem seqVisit_getD (n : ℕ) (labeled : ℕ → Bool) (c : ℕ) (hc : c < n)
    (hk : 2 ≤ (ulist n labeled).length) :
    ∃ i0, i0 < (ulist n labeled).length ∧
      ∀ t, seqVisit n labeled c (t + 1) =
        (ulist n labeled).getD ((i0 + t) % (ulist n labeled).length) 0 := by
  obtain ⟨j, hj, hjmem⟩ := scan_isSome_of_two n labeled c hc hk
  obtain ⟨m, hm⟩ := List.mem_iff_get.mp hjmem
  have hstep : ∀ u, seqVisit n labeled c (u + 1) =
      (match scanNextUnlabeled n labeled (seqVisit n labeled c u) with
        | some j => j
        | none => seqVisit n labeled c u) := fun u => rfl
  have hzero : seqVisit n labeled c 0 = c := rfl
  refine ⟨(m : ℕ), m.isLt, ?_⟩
  intro t
  induction t with
  | zero =>
    rw [hstep 0, hzero, hj]
    show j = _
    have h1 : ((m : ℕ) + 0) % (ulist n labeled).length = (m : ℕ) := by
      rw [Nat.add_zero]
      exact Nat.mod_eq_of_lt m.isLt
    rw [h1, List.getD_eq_getElem _ 0 m.isLt, ← List.get_eq_getElem]
    exact hm.symm
  | succ t ih =>
    have hidx : ((m : ℕ) + t) % (ulist n labeled).length < (ulist n labeled).length :=
      Nat.mod_lt _ (by omega)
    have hidx2 : (((m : ℕ) + t) % (ulist n labeled).length + 1) % (ulist n labeled).length =
        ((m : ℕ) + (t + 1)) % (ulist n labeled).length := by
      rw [Nat.mod_add_mod, Nat.add_assoc]
    rw [hstep (t + 1), ih, scan_getD_succ n labeled _ hidx hk, hidx2]

/-! ## Structural facts about the session operations -/

theorem save_some_shape (s : LabelerState) (a : ℚ) (ok : Bool)
    (h : s.selected_angle = some a) :
    (save_current_selection_if_exists ok s).1.labels =
        (fun k => if k = currentFile s then some a else s.labels k) ∧
    (save_current_selection_if_exists ok s).1.all_gifs = s.all_gifs ∧
    (save_current_selection_if_exists ok s).1.current_gif_index = s.current_gif_index ∧
    (save_current_selection_if_exists ok s).2 =
      write_labels_to_csv ok s.all_gifs
        (fun k => if k = currentFile s then some a else s.labels k) := by
  unfold save_current_selection_if_exists
  rw [h]
  by_cases hn : (s.labels (currentFile s)).isNone <;> simp [hn]

theorem load_labels_eq (s : LabelerState) (i : ℕ) :
    (load_gif_at_index s i).1.labels = s.labels := by
  unfold load_gif_at_index
  by_cases h : i < s.all_gifs.length
  · rw [if_pos h]
    rcases hl : s.labels (s.all_gifs.getD i "") with _ | a <;> simp only [hl]
  · rw [if_neg h]

theorem go_next_labels_eq (s : LabelerState) :
    (go_to_next_gif s).1.labels = s.labels := by
  unfold go_to_next_gif
  by_cases h : s.current_gif_index < s.all_gifs.length - 1
  · rw [if_pos h]
    exact load_labels_eq s _
  · rw [if_neg h]

theorem undo_some_shape (s : LabelerState) (ok : Bool) (a : ℚ)
    (h : s.labels (currentFile s) = some a) :
    (undo_current_selection ok s).1.labels =
        (fun k => if k = currentFile s then none else s.labels k) ∧
    (undo_current_selection ok s).1.selected_angle = none ∧
    (undo_current_selection ok s).2 =
      write_labels_to_csv ok s.all_gifs
        (fun k => if k = currentFile s then none else s.labels k) ++ [StoreEvent.bell] := by
  simp only [undo_current_selection]
  rw [h]
  by_cases hn : s.newly_labeled_in_session (currentFile s) <;> simp [hn]

theorem read_write_no_key (gifs : List String) (labels : String → Option ℚ) (f : String)
    (hf : labels f = none) :
    ∃ m, readLabelsFromCSV (writeLabelsRows gifs labels) = some m ∧ m f = none := by
  unfold readLabelsFromCSV writeLabelsRows
  simp only [List.drop_succ_cons, List.drop_zero]
  rw [readRows_bodyRows]
  refine ⟨_, rfl, ?_⟩
  simp [hf]

/-! ## Sample states used in witnesses and counterexamples -/

/-- One item, nothing labeled, a pending selection of 45 degrees. -/
def sampleState : LabelerState :=
  { all_gifs := ["a.gif"]
    labels := fun _ => none
    current_gif_index := 0
    selected_angle := some 45
    total_unlabeled_at_start := 1
    labeled_this_session := 0
    newly_labeled_in_session := fun _ => false }

/-- One item, no label, no pending selection. -/
def noSelState : LabelerState :=
  { all_gifs := ["a.gif"]
    labels := fun _ => none
    current_gif_index := 0
    selected_angle := none
    total_unlabeled_at_start := 1
    labeled_this_session := 0
    newly_labeled_in_session := fun _ => false }

/-- One item whose label 45 is already stored; cursor on it. -/
def labeledState : LabelerState :=
  { all_gifs := ["a.gif"]
    labels := fun k => if k = "a.gif" then some 45 else none
    current_gif_index := 0
    selected_angle := none
    total_unlabeled_at_start := 0
    labeled_this_session := 0
    newly_labeled_in_session := fun _ => false }

/-- Two items; only the second is labeled; cursor on the unlabeled first. -/
def twoState : LabelerState :=
  { all_gifs := ["a.gif", "b.gif"]
    labels := fun k => if k = "b.gif" then some 90 else none
    current_gif_index := 0
    selected_angle := none
    total_unlabeled_at_start := 1
    labeled_this_session := 0
    newly_labeled_in_session := fun _ => false }

/-! ## Claim theorems -/

/-- C1 counterexample: a pointer on the horizontal through the origin and to
its right, e.g. `(300, 0)` with origin `(200, 0)`, is committed as 180
degrees, not 0 as the claim asserts (`atan2(0, 100) = 0`, so
`180 - degrees(0) = 180`). -/
theorem c1_rightward_counterexample :
    calculate_angle_from_coords 300 0 = 180 ∧ (180 : ℝ) ≠ 0 := by
  constructor
  · rw [calculate_angle_eq]
    have h0 : (0 : ℝ) - 0 = 0 := by ring
    have h1 : (300 : ℝ) - 400 / 2 = 100 := by norm_num
    rw [h0, h1, atan2_zero_pos (by norm_num)]
    unfold degrees
    norm_num
  · norm_num

/-- C1 (amended): the committed angle equals
`clamp(180 - degrees(atan2(y - 0, x - W/2)), 0, 180)`; a point directly below
the origin yields 90; a point on the horizontal to the RIGHT of the origin
yields 180 and one to the LEFT yields 0 (the claim had these two swapped);
the result lies in `[0, 180]` for every position. -/
theorem calculate_angle_spec :
    (∀ x y : ℝ, calculate_angle_from_coords x y =
        max 0 (min 180 (180 - degrees (atan2 (y - 0) (x - 400 / 2))))) ∧
    (∀ y : ℝ, 0 < y → calculate_angle_from_coords 200 y = 90) ∧
    (∀ x : ℝ, 200 < x → calculate_angle_from_coords x 0 = 180) ∧
    (∀ x : ℝ, x < 200 → calculate_angle_from_coords x 0 = 0) ∧
    (∀ x y : ℝ, 0 ≤ calculate_angle_from_coords x y ∧
      calculate_angle_from_coords x y ≤ 180) := by
  refine ⟨fun x y => calculate_angle_eq x y, ?_, ?_, ?_, calculate_angle_mem_Icc⟩
  · intro y hy
    rw [calculate_angle_eq]
    have h1 : (200 : ℝ) - 400 / 2 = 0 := by norm_num
    rw [h1, atan2_pos_zero (by linarith), degrees_pi_div_two]
    norm_num
  · intro x hx
    rw [calculate_angle_eq]
    have h0 : (0 : ℝ) - 0 = 0 := by ring
    rw [h0, atan2_zero_pos (by linarith [hx]; )]
    unfold degrees
    norm_num
  · intro x hx
    rw [calculate_angle_eq]
    have h0 : (0 : ℝ) - 0 = 0 := by ring
    rw [h0, atan2_zero_neg (by linarith [hx])]
    rw [degrees_pi]
    norm_num

/-- Witness for C1 (amended) at concrete pointer positions. -/
theorem calculate_angle_spec_witness :
    calculate_angle_from_coords 200 7 = 90 ∧ calculate_angle_from_coords 300 0 = 180 ∧
      calculate_angle_from_coords 100 0 = 0 :=
  ⟨calculate_angle_spec.2.1 7 (by norm_num), calculate_angle_spec.2.2.1 300 (by norm_num),
    calculate_angle_spec.2.2.2.1 100 (by norm_num)⟩

/-- C2: for every label mapping whose keys all belong to the item collection,
writing the store and re-parsing it yields a mapping with the same key set
whose values are the originals rounded to two decimal places. -/
theorem labels_roundtrip (gifs : List String) (labels : String → Option ℚ)
    (hkeys : ∀ f, (labels f).isSome = true → f ∈ gifs) :
    readLabelsFromCSV (writeLabelsRows gifs labels) =
      some (fun k => (labels k).map round2) := by
  unfold readLabelsFromCSV writeLabelsRows
  simp only [List.drop_succ_cons, List.drop_zero]
  rw [readRows_bodyRows]
  congr 1
  funext k
  rcases hl : labels k with _ | a
  · simp [hl]
  · have hmem : k ∈ gifs := hkeys k (by rw [hl]; rfl)
    simp [hl, hmem]

/-- Witness for C2: one labeled item, value 57.3 (stored as `57.30`). -/
theorem labels_roundtrip_witness :
    readLabelsFromCSV (writeLabelsRows ["a.gif", "b.gif"]
        (fun k => if k = "a.gif" then some ((573 : ℚ) / 10) else none)) =
      some (fun k =>
        ((fun k => if k = "a.gif" then some ((573 : ℚ) / 10) else none) k).map round2) :=
  labels_roundtrip ["a.gif", "b.gif"] _ (by
    intro f hf
    by_cases hfa : f = "a.gif"
    · simp [hfa]
    · simp [hfa] at hf)

theorem dot_mem_fmt2Chars (a : ℚ) : '.' ∈ fmt2Chars a := by
  simp [fmt2Chars]

theorem fmt2_ne_angle (a : ℚ) : fmt2 a ≠ "angle" := by
  intro h
  have hd : fmt2Chars a = "angle".data := congrArg String.data h
  have hdot := dot_mem_fmt2Chars a
  rw [hd] at hdot
  exact absurd hdot (by decide)

/-- C3: a successful store write emits exactly the header row followed by one
row per labeled item in item order: the row keys are the labeled items in
`all_gifs` order, every data row is `[filename, angle to two decimals]` for a
labeled item (hence no stale rows and no second header), each labeled item
has exactly one row, key order inherits the sort order of the collection,
and there are no duplicate rows. -/
theorem write_store_structure (gifs : List String) (labels : String → Option ℚ) :
    (writeLabelsRows gifs labels).head? = some ["filename", "angle"] ∧
    ((writeLabelsRows gifs labels).tail.map (fun r => r.headD "") =
      gifs.filter (fun f => (labels f).isSome)) ∧
    (∀ r ∈ (writeLabelsRows gifs labels).tail,
      (∃ f a, f ∈ gifs ∧ labels f = some a ∧ r = [f, fmt2 a]) ∧
        r ≠ ["filename", "angle"]) ∧
    (gifs.Nodup → ∀ f a, f ∈ gifs → labels f = some a →
      @List.count (List String) instBEqOfDecidableEq [f, fmt2 a]
        (writeLabelsRows gifs labels).tail = 1) ∧
    (List.Sorted (fun x y : String => x < y) gifs →
      List.Sorted (fun x y : String => x < y)
        ((writeLabelsRows gifs labels).tail.map (fun r => r.headD ""))) ∧
    (gifs.Nodup → (writeLabelsRows gifs labels).tail.Nodup) := by
  have htail : (writeLabelsRows gifs labels).tail = bodyRows gifs labels := rfl
  have hchar : ∀ r ∈ bodyRows gifs labels, ∃ f a, f ∈ gifs ∧ labels f = some a ∧
      r = [f, fmt2 a] := by
    intro r hr
    obtain ⟨f, hf, hfr⟩ := List.mem_filterMap.mp hr
    obtain ⟨a, ha, har⟩ := Option.map_eq_some'.mp hfr
    exact ⟨f, a, hf, ha, har.symm⟩
  have hnodup : gifs.Nodup → (bodyRows gifs labels).Nodup := by
    intro hg
    apply List.Nodup.of_map (fun r => r.headD "")
    rw [bodyRows_keys]
    exact hg.filter _
  refine ⟨rfl, by rw [htail]; exact bodyRows_keys gifs labels, ?_, ?_, ?_, ?_⟩
  · intro r hr
    rw [htail] at hr
    refine ⟨hchar r hr, ?_⟩
    obtain ⟨f, a, _, _, hra⟩ := hchar r hr
    rw [hra]
    intro hbad
    have : fmt2 a = "angle" := by
      have := List.cons.injEq .. ▸ hbad
      exact (List.cons.inj (List.cons.inj hbad).2).1
    exact fmt2_ne_angle a this
  · intro hg f a hf ha
    rw [htail]
    apply List.count_eq_one_of_mem (hnodup hg)
    apply List.mem_filterMap.mpr
    exact ⟨f, hf, by rw [ha]; rfl⟩
  · intro hs
    rw [htail, bodyRows_keys]
    exact hs.filter _
  · intro hg
    rw [htail]
    exact hnodup hg

/-- Witness for C3 on a concrete two-item collection with one label. -/
theorem write_store_structure_witness :
    (writeLabelsRows ["a.gif", "b.gif"]
        (fun k => if k = "a.gif" then some 90 else none)).head? =
      some ["filename", "angle"] ∧
    @List.count (List String) instBEqOfDecidableEq ["a.gif", fmt2 90]
      (writeLabelsRows ["a.gif", "b.gif"]
        (fun k => if k = "a.gif" then some 90 else none)).tail = 1 :=
  ⟨(write_store_structure _ _).1,
    (write_store_structure ["a.gif", "b.gif"] _).2.2.2.1 (by decide) "a.gif" 90
      (by decide) (by decide)⟩

/-- C4 counterexample: with one unlabeled item and pending selection 45, a
failing write surfaces an error box -- but the in-memory mapping has already
been updated with the new label, so it is NOT unchanged from its pre-save
value as the claim asserts. -/
theorem save_write_failure_counterexample :
    (save_current_selection_if_exists false sampleState).1.labels "a.gif" = some 45 ∧
    sampleState.labels "a.gif" = none ∧
    (save_current_selection_if_exists false sampleState).2 = [StoreEvent.writeError] := by
  refine ⟨?_, rfl, ?_⟩ <;> rfl

/-- C4 (amended): when the store write fails during a save, the failure is
surfaced (an error box event is emitted and no store-write event occurs), but
the in-memory Label mapping has already been updated with the pending
selection before the write was attempted -- exactly the same mapping the
successful-write path produces; the on-disk file contents after the failure
are outside this model. -/
theorem save_write_failure_spec (s : LabelerState) (a : ℚ)
    (h : s.selected_angle = some a) :
    ((save_current_selection_if_exists false s).1.labels =
      fun k => if k = currentFile s then some a else s.labels k) ∧
    (save_current_selection_if_exists false s).2 = [StoreEvent.writeError] ∧
    (save_current_selection_if_exists false s).1.labels =
      (save_current_selection_if_exists true s).1.labels := by
  obtain ⟨hf1, _, _, hf4⟩ := save_some_shape s a false h
  obtain ⟨ht1, _, _, _⟩ := save_some_shape s a true h
  refine ⟨hf1, ?_, ?_⟩
  · rw [hf4]
    rfl
  · rw [hf1, ht1]

/-- Witness for C4 (amended) on `sampleState`. -/
theorem save_write_failure_spec_witness :
    ((save_current_selection_if_exists false sampleState).1.labels =
      fun k => if k = currentFile sampleState then some 45 else sampleState.labels k) ∧
    (save_current_selection_if_exists false sampleState).2 = [StoreEvent.writeError] ∧
    (save_current_selection_if_exists false sampleState).1.labels =
      (save_current_selection_if_exists true sampleState).1.labels :=
  save_write_failure_spec sampleState 45 rfl

/-- C5 counterexample: two items, only the second labeled, cursor on the
unlabeled first item: "Next Unlabeled" reports "Complete!" and falls through
to the sequential advance (landing on item 1), even though the current item
`a.gif` is still unlabeled -- the scan never considers the cursor position
itself, so the claim's "AllLabeled only when no unlabeled Item exists" is
false. -/
theorem next_unlabeled_counterexample :
    (find_and_go_to_next_unlabeled true twoState).2 =
      [StoreEvent.infoMessage "Complete!", StoreEvent.loaded 1] ∧
    (find_and_go_to_next_unlabeled true twoState).1.current_gif_index = 1 ∧
    twoState.labels (twoState.all_gifs.getD twoState.current_gif_index "") = none := by
  refine ⟨?_, ?_, rfl⟩ <;> rfl

/-- C5 (amended): the scan starts just after the cursor and wraps, but never
scans the cursor position itself: it lands on the head of `circAfter` (the
first unlabeled position strictly after the cursor in circular order); it
finds nothing exactly when every OTHER position is labeled (even if the
cursor's item is not), in which case the operation reports "Complete!" and
falls back to the sequential advance; and with a static label mapping and at
least two unlabeled items, repeated calls visit every unlabeled item exactly
once before revisiting any, from any start. -/
theorem next_unlabeled_spec (n : ℕ) (labeled : ℕ → Bool) :
    (∀ c, c < n → scanNextUnlabeled n labeled c = (circAfter n labeled c).head?) ∧
    (∀ c, c < n →
      (scanNextUnlabeled n labeled c = none ↔ ∀ i, i < n → labeled i = false → i = c)) ∧
    (∀ s : LabelerState, s.selected_angle = none →
      scanNextUnlabeled s.all_gifs.length (labeledIn s) s.current_gif_index = none →
      find_and_go_to_next_unlabeled true s =
        ((go_to_next_gif s).1, StoreEvent.infoMessage "Complete!" :: (go_to_next_gif s).2)) ∧
    (2 ≤ (ulist n labeled).length → ∀ c, c < n →
      ((List.range (ulist n labeled).length).map
          (fun t => seqVisit n labeled c (t + 1))).Nodup ∧
      (∀ u, u ∈ (List.range (ulist n labeled).length).map
          (fun t => seqVisit n labeled c (t + 1)) ↔ u ∈ ulist n labeled) ∧
      seqVisit n labeled c ((ulist n labeled).length + 1) = seqVisit n labeled c 1) := by
  refine ⟨fun c hc => scan_eq_circ n labeled c hc,
    fun c hc => scan_none_iff n labeled c hc, ?_, ?_⟩
  · intro s hsel hscan
    unfold find_and_go_to_next_unlabeled
    have hsave : save_current_selection_if_exists true s = (s, []) := by
      unfold save_current_selection_if_exists
      rw [hsel]
    rw [hsave]
    simp only [hscan]
    rfl
  · intro hk c hc
    obtain ⟨i0, h0, hform⟩ := seqVisit_getD n labeled c hc hk
    have hkpos : 0 < (ulist n labeled).length := by omega
    have hmapeq : (List.range (ulist n labeled).length).map
        (fun t => seqVisit n labeled c (t + 1)) =
        (List.range (ulist n labeled).length).map
          (fun t => (ulist n labeled).getD ((i0 + t) % (ulist n labeled).length) 0) :=
      List.map_congr_left (fun t _ => hform t)
    refine ⟨?_, ?_, ?_⟩
    · rw [hmapeq]
      apply List.Nodup.map_on ?_ (List.nodup_range _)
      intro t1 ht1 t2 ht2 heq
      rw [List.mem_range] at ht1 ht2
      have hm1 : (i0 + t1) % (ulist n labeled).length < (ulist n labeled).length :=
        Nat.mod_lt _ hkpos
      have hm2 : (i0 + t2) % (ulist n labeled).length < (ulist n labeled).length :=
        Nat.mod_lt _ hkpos
      rw [List.getD_eq_getElem _ 0 hm1, List.getD_eq_getElem _ 0 hm2] at heq
      have hgeq : (ulist n labeled).get ⟨(i0 + t1) % (ulist n labeled).length, hm1⟩ =
          (ulist n labeled).get ⟨(i0 + t2) % (ulist n labeled).length, hm2⟩ := by
        rw [List.get_eq_getElem, List.get_eq_getElem]
        exact heq
      have hfin := List.nodup_iff_injective_get.mp (ulist_nodup n labeled) hgeq
      have hidx : (i0 + t1) % (ulist n labeled).length =
          (i0 + t2) % (ulist n labeled).length := congrArg Fin.val hfin
      have hmodeq : t1 % (ulist n labeled).length = t2 % (ulist n labeled).length :=
        Nat.ModEq.add_left_cancel' i0 hidx
      rw [Nat.mod_eq_of_lt ht1, Nat.mod_eq_of_lt ht2] at hmodeq
      exact hmodeq
    · intro u
      rw [hmapeq]
      constructor
      · intro hu
        obtain ⟨t, _, hfu⟩ := List.mem_map.mp hu
        have hm : (i0 + t) % (ulist n labeled).length < (ulist n labeled).length :=
          Nat.mod_lt _ hkpos
        rw [List.getD_eq_getElem _ 0 hm] at hfu
        rw [← hfu]
        exact List.getElem_mem hm
      · intro hu
        obtain ⟨mj, hmj⟩ := List.mem_iff_get.mp hu
        refine List.mem_map.mpr
          ⟨if i0 ≤ (mj : ℕ) then (mj : ℕ) - i0 else (ulist n labeled).length + (mj : ℕ) - i0,
            ?_, ?_⟩
        · rw [List.mem_range]
          have := mj.isLt
          by_cases hij : i0 ≤ (mj : ℕ)
          · rw [if_pos hij]; omega
          · rw [if_neg hij]; omega
        · by_cases hij : i0 ≤ (mj : ℕ)
          · rw [if_pos hij]
            have harith : i0 + ((mj : ℕ) - i0) = (mj : ℕ) := by omega
            rw [harith, Nat.mod_eq_of_lt mj.isLt,
              List.getD_eq_getElem _ 0 mj.isLt, ← List.get_eq_getElem]
            exact hmj
          · rw [if_neg hij]
            have harith : i0 + ((ulist n labeled).length + (mj : ℕ) - i0) =
                (ulist n labeled).length + (mj : ℕ) := by omega
            rw [harith, Nat.add_mod_left, Nat.mod_eq_of_lt mj.isLt,
              List.getD_eq_getElem _ 0 mj.isLt, ← List.get_eq_getElem]
            exact hmj
    · rw [hform ((ulist n labeled).length), hform 0]
      congr 1
      rw [Nat.add_mod_right, Nat.add_zero]

/-- Witness for C5 (amended): three items with only the middle one labeled
(`ulist = [0, 2]`), cursor at 0; plus the fallback branch on `twoState`. -/
theorem next_unlabeled_spec_witness :
    (scanNextUnlabeled 3 (fun i => decide (i = 1)) 0 =
      (circAfter 3 (fun i => decide (i = 1)) 0).head?) ∧
    (seqVisit 3 (fun i => decide (i = 1)) 0 ((ulist 3 (fun i => decide (i = 1))).length + 1) =
      seqVisit 3 (fun i => decide (i = 1)) 0 1) ∧
    (find_and_go_to_next_unlabeled true twoState =
      ((go_to_next_gif twoState).1,
        StoreEvent.infoMessage "Complete!" :: (go_to_next_gif twoState).2)) :=
  ⟨(next_unlabeled_spec 3 (fun i => decide (i = 1))).1 0 (by decide),
    ((next_unlabeled_spec 3 (fun i => decide (i = 1))).2.2.2 (by decide) 0 (by decide)).2.2,
    (next_unlabeled_spec 2 (fun _ => true)).2.2.1 twoState rfl (by decide)⟩

/-- C6 counterexample: landing on an item that already has a stored label
sets the Pending Selection to that label (`self.selected_angle =
self.labels[filename]`), so it is NOT empty after the navigation as the
claim asserts. -/
theorem pending_after_load_counterexample :
    (load_gif_at_index labeledState 0).1.selected_angle = some 45 ∧
    (some (45 : ℚ) ≠ (none : Option ℚ)) := by
  refine ⟨rfl, by decide⟩

/-- C6 (amended): after `load_gif_at_index` lands on a valid index, the
Pending Selection equals the stored label of the newly displayed item -- it
is cleared to empty first and then repopulated from the mapping, so it ends
up empty exactly when the new item has no stored label. -/
theorem pending_after_load_spec (s : LabelerState) (index : ℕ)
    (h : index < s.all_gifs.length) :
    (load_gif_at_index s index).1.selected_angle =
      s.labels (s.all_gifs.getD index "") ∧
    (load_gif_at_index s index).1.current_gif_index = index := by
  unfold load_gif_at_index
  rw [if_pos h]
  rcases hl : s.labels (s.all_gifs.getD index "") with _ | a <;> simp only [hl] <;>
    constructor <;> trivial

/-- Witness for C6 (amended) on `labeledState`. -/
theorem pending_after_load_spec_witness :
    (load_gif_at_index labeledState 0).1.selected_angle =
      labeledState.labels (labeledState.all_gifs.getD 0 "") ∧
    (load_gif_at_index labeledState 0).1.current_gif_index = 0 :=
  pending_after_load_spec labeledState 0 (by decide)

/-- C7 counterexample: the startup parser performs no range validation --
`float(row[1])` is stored as-is -- so a store row `a.gif,-5` puts the
out-of-range angle −5 into the in-memory mapping, violating the claimed
invariant `0 ≤ angle ≤ 180`. -/
theorem angle_range_parse_counterexample :
    ∃ m, readLabelsFromCSV [["filename", "angle"], ["a.gif", "-5"]] = some m ∧
      m "a.gif" = some (-5 : ℚ) ∧ ¬(0 ≤ (-5 : ℚ)) := by
  refine ⟨_, rfl, ?_, by norm_num⟩
  decide

/-- C7 (amended): angles produced by pointer interaction always lie in
`[0, 180]` (the computation clamps), but the store parser accepts any float,
so a label loaded at startup may lie outside `[0, 180]` -- the range
invariant holds only for pointer-produced angles. -/
theorem angle_range_spec :
    (∀ x y : ℝ, 0 ≤ calculate_angle_from_coords x y ∧
      calculate_angle_from_coords x y ≤ 180) ∧
    (∃ m, readLabelsFromCSV [["filename", "angle"], ["a.gif", "-5"]] = some m ∧
      m "a.gif" = some (-5 : ℚ)) := by
  refine ⟨calculate_angle_mem_Icc, ⟨_, rfl, ?_⟩⟩
  decide

/-- C8 counterexample: invoking save with an empty Pending Selection returns
the state unchanged and emits NO event at all -- in particular no
user-visible `NoSelection` notice, contrary to the claim (the code's
`if self.selected_angle is not None:` has no else branch). -/
theorem save_empty_selection_counterexample :
    save_current_selection_if_exists true noSelState = (noSelState, []) := rfl

/-- C8 (amended): save with an empty Pending Selection is a silent no-op: it
performs no I/O and emits no notice of any kind, and the session state
(including the Label mapping) is unchanged. -/
theorem save_empty_selection_spec (ok : Bool) (s : LabelerState)
    (h : s.selected_angle = none) :
    save_current_selection_if_exists ok s = (s, []) := by
  unfold save_current_selection_if_exists
  rw [h]

/-- Witness for C8 (amended) on `noSelState` with both write outcomes. -/
theorem save_empty_selection_spec_witness :
    save_current_selection_if_exists false noSelState = (noSelState, []) :=
  save_empty_selection_spec false noSelState rfl

/-- C9: undo on a labeled current item removes exactly that item's label from
the mapping, rewrites the store (and the reloaded store then has no record at
all for the item), and clears the Pending Selection; undo on an unlabeled
current item is a silent no-op (state unchanged, no events). -/
theorem undo_spec (s : LabelerState) (ok : Bool) :
    (∀ a, s.labels (currentFile s) = some a →
      (undo_current_selection ok s).1.labels (currentFile s) = none ∧
      (∀ kk, kk ≠ currentFile s →
        (undo_current_selection ok s).1.labels kk = s.labels kk) ∧
      (undo_current_selection ok s).1.selected_angle = none ∧
      (ok = true → (undo_current_selection ok s).2 =
        [StoreEvent.wroteStore (writeLabelsRows s.all_gifs
          (fun k => if k = currentFile s then none else s.labels k)), StoreEvent.bell]) ∧
      (∃ m, readLabelsFromCSV (writeLabelsRows s.all_gifs
          (fun k => if k = currentFile s then none else s.labels k)) = some m ∧
        m (currentFile s) = none)) ∧
    (s.labels (currentFile s) = none → undo_current_selection ok s = (s, [])) := by
  constructor
  · intro a ha
    obtain ⟨h1, h2, h3⟩ := undo_some_shape s ok a ha
    refine ⟨?_, ?_, h2, ?_, ?_⟩
    · rw [h1]
      simp
    · intro kk hkk
      rw [h1]
      simp [hkk]
    · intro hok
      subst hok
      rw [h3]
      rfl
    · exact read_write_no_key s.all_gifs _ (currentFile s) (by simp)
  · intro hnone
    simp only [undo_current_selection]
    rw [hnone]

/-- Witness for C9 at a labeled and an unlabeled current item. -/
theorem undo_spec_witness :
    (undo_current_selection true labeledState).1.labels (currentFile labeledState) = none ∧
    undo_current_selection true noSelState = (noSelState, []) :=
  ⟨((undo_spec labeledState true).1 45 (by decide)).1, (undo_spec noSelState true).2 rfl⟩

/-- C10: both forward-navigation commands (sequential next and next-unlabeled)
first commit a non-empty Pending Selection into the Label mapping and rewrite
the store, before any cursor movement: the final mapping contains the
committed label and the first emitted event is the store write of that
updated mapping. -/
theorem forward_nav_saves_spec (s : LabelerState) (a : ℚ)
    (h : s.selected_angle = some a) :
    ((save_and_go_to_next_sequential true s).1.labels =
      fun k => if k = currentFile s then some a else s.labels k) ∧
    ((save_and_go_to_next_sequential true s).2.head? =
      some (StoreEvent.wroteStore (writeLabelsRows s.all_gifs
        (fun k => if k = currentFile s then some a else s.labels k)))) ∧
    ((find_and_go_to_next_unlabeled true s).1.labels =
      fun k => if k = currentFile s then some a else s.labels k) ∧
    ((find_and_go_to_next_unlabeled true s).2.head? =
      some (StoreEvent.wroteStore (writeLabelsRows s.all_gifs
        (fun k => if k = currentFile s then some a else s.labels k)))) := by
  obtain ⟨h1, _, _, h4⟩ := save_some_shape s a true h
  refine ⟨?_, ?_, ?_, ?_⟩
  · show (go_to_next_gif (save_current_selection_if_exists true s).1).1.labels = _
    rw [go_next_labels_eq, h1]
  · show ((save_current_selection_if_exists true s).2 ++
        (go_to_next_gif (save_current_selection_if_exists true s).1).2).head? = _
    rw [h4]
    rfl
  · unfold find_and_go_to_next_unlabeled
    rcases hscan : scanNextUnlabeled (save_current_selection_if_exists true s).1.all_gifs.length
        (labeledIn (save_current_selection_if_exists true s).1)
        (save_current_selection_if_exists true s).1.current_gif_index with _ | j <;>
      simp only [hscan]
    · rw [go_next_labels_eq, h1]
    · rw [load_labels_eq, h1]
  · unfold find_and_go_to_next_unlabeled
    rcases hscan : scanNextUnlabeled (save_current_selection_if_exists true s).1.all_gifs.length
        (labeledIn (save_current_selection_if_exists true s).1)
        (save_current_selection_if_exists true s).1.current_gif_index with _ | j <;>
      simp only [hscan]
    · rw [h4]
      rfl
    · rw [h4]
      rfl

/-- Witness for C10 on `sampleState` (pending selection 45). -/
theorem forward_nav_saves_spec_witness :
    ((save_and_go_to_next_sequential true sampleState).1.labels =
      fun k => if k = currentFile sampleState then some 45 else sampleState.labels k) ∧
    ((save_and_go_to_next_sequential true sampleState).2.head? =
      some (StoreEvent.wroteStore (writeLabelsRows sampleState.all_gifs
        (fun k => if k = currentFile sampleState then some 45 else sampleState.labels k)))) ∧
    ((find_and_go_to_next_unlabeled true sampleState).1.labels =
      fun k => if k = currentFile sampleState then some 45 else sampleState.labels k) ∧
    ((find_and_go_to_next_unlabeled true sampleState).2.head? =
      some (StoreEvent.wroteStore (writeLabelsRows sampleState.all_gifs
        (fun k => if k = currentFile sampleState then some 45 else sampleState.labels k)))) :=
  forward_nav_saves_spec sampleState 45 rfl
